import Mathlib

/-!
Shallow embedding of `scripts/fetch_news.py` (TrendBot): a daily news
collection pipeline.  Pure data is modelled directly; the file system
(the per-day CSV and the optional query file), the HTTP transport and
the wall clock are modelled as explicit values passed to the functions
that use them.  `str.strip()` is modelled as `pyStrip` (drop whitespace
from both ends of the character list), XML input to `parse_rss` as a
tree that is either malformed (ET.fromstring raises) or a root element.
-/

namespace TrendBot

/-- Python `str.strip()`: remove leading and trailing whitespace. -/
def pyStrip (s : String) : String :=
  ⟨List.rdropWhile Char.isWhitespace (List.dropWhile Char.isWhitespace s.data)⟩

/-- An XML element as seen through the ElementTree calls the script makes:
a tag, optional text content, and child elements. -/
inductive Element where
  | mk (tag : String) (text : Option String) (children : List Element)

def Element.tag : Element → String
  | .mk t _ _ => t

def Element.text : Element → Option String
  | .mk _ x _ => x

def Element.children : Element → List Element
  | .mk _ _ c => c

/-- `element.find(tag)`: first direct child with the given tag. -/
def Element.findTag (e : Element) (tag : String) : Option Element :=
  e.children.find? (fun c => c.tag = tag)

/-- `element.findall(tag)`: all direct children with the given tag. -/
def Element.findAllTag (e : Element) (tag : String) : List Element :=
  e.children.filter (fun c => c.tag = tag)

/-- `element.findtext(tag)`: text of the first matching child (the empty
string when the child has no text), `none` when there is no such child. -/
def Element.findtext (e : Element) (tag : String) : Option String :=
  (e.findTag tag).map (fun c => c.text.getD "")

/-- The text fed to `parse_rss`: either not well-formed XML
(`ET.fromstring` raises) or a parsed root element. -/
inductive XmlText where
  | malformed
  | wellFormed (root : Element)

/-- `NewsItem` dataclass. -/
structure NewsItem where
  query : String
  title : String
  link : String
  published : String
  collected_jst : String
deriving DecidableEq, Repr

/-- A row of the day's CSV, in the fixed six-column schema. -/
structure Row where
  source : String
  query : String
  title : String
  link : String
  published : String
  collected_jst : String
deriving DecidableEq, Repr

/-- `NewsItem.as_row`. -/
def NewsItem.as_row (it : NewsItem) : Row :=
  { source := "GoogleNews:" ++ it.query
    query := it.query
    title := it.title
    link := it.link
    published := it.published
    collected_jst := it.collected_jst }

/-- `parse_rss(xml_text, query, max_items)`.  The wall clock
(`now_jst_iso()`, sampled for `collected_jst`) is passed in as `now`. -/
def parse_rss (xml : XmlText) (query : String) (max_items : Nat) (now : String) :
    List NewsItem :=
  match xml with
  | .malformed => []
  | .wellFormed root =>
    match root.findTag "channel" with
    | none => []
    | some channel =>
      ((channel.findAllTag "item").take max_items).filterMap (fun it =>
        let title := pyStrip ((it.findtext "title").getD "")
        let link := pyStrip ((it.findtext "link").getD "")
        let pub := pyStrip ((it.findtext "pubDate").getD "")
        if title = "" then none
        else some ⟨query, title, link, pub, now⟩)

/-- `DEFAULT_QUERIES`. -/
def DEFAULT_QUERIES : List String :=
  ["物価 食料 日本", "米 小麦 価格", "コンビニ 新商品"]

/-- The optional `config/queries.txt`: absent, or a list of lines. -/
inductive QueryFile where
  | missing
  | present (lines : List String)

/-- Python `s.startswith("#")`: the first character is `#`. -/
def startsWithHash (s : String) : Bool :=
  match s.data with
  | [] => false
  | c :: _ => c = '#'

/-- `load_queries_from_file(path)`: empty when the file is absent,
otherwise the stripped lines, skipping blanks and `#` comments. -/
def load_queries_from_file : QueryFile → List String
  | .missing => []
  | .present lines =>
    lines.filterMap (fun l =>
      let s := pyStrip l
      if s = "" then none
      else if startsWithHash s then none
      else some s)

/-- The query list a run actually iterates: the file's usable lines, or
`DEFAULT_QUERIES` when that list is empty (`if not queries:` fallback). -/
def queriesUsed (qf : QueryFile) : List String :=
  let queries := load_queries_from_file qf
  if queries.isEmpty then DEFAULT_QUERIES else queries

/-- The state of the day's CSV file: absent, or a file together with the
data rows a read of it yields, in order.  `readable = true` means the
read reaches end-of-file; `readable = false` means the read then raises
(an open failure or a csv/decode error — `rows` are the rows yielded
before that failure, so an open-time failure is `file false []`). -/
inductive CsvFile where
  | missing
  | file (readable : Bool) (rows : List Row)
deriving DecidableEq, Repr

/-- The rows durably stored in a `CsvFile`. -/
def CsvFile.rowsOf : CsvFile → List Row
  | .missing => []
  | .file _ rows => rows

/-- The loop body of `read_existing_set`: strip title and link and add
the key to the set when both are non-empty (`if t and l`). -/
def readStep (seen : List (String × String)) (r : Row) : List (String × String) :=
  let t := pyStrip r.title
  let l := pyStrip r.link
  if t ≠ "" ∧ l ≠ "" then
    (if (t, l) ∈ seen then seen else (t, l) :: seen)
  else seen

/-- `read_existing_set(csv_path)`: the set of `(title, link)` keys of
existing rows with a non-empty stripped title and link.  A missing file
gives the empty set.  `seen` is built row by row inside the `try`, and a
read failure is caught by `except: pass` and the function returns the
set built so far — the keys of the rows yielded before the failure, not
the empty set (empty only when the failure precedes the first row). -/
def read_existing_set : CsvFile → List (String × String)
  | .missing => []
  | .file _ rows => rows.foldl readStep []

/-- `append_rows(csv_path, rows)`: create the file (header first) when it
does not exist, otherwise append after the existing content. -/
def append_rows (f : CsvFile) (rows : List Row) : CsvFile :=
  match f with
  | .missing => .file true rows
  | .file b old => .file b (old ++ rows)

/-- One HTTP fetch: a raised/failed request (`except` branch, yielding
`items = []`) or a successful response body. -/
inductive FetchResult where
  | failure
  | success (body : XmlText)

/-- The identity key `(title, link)` of a candidate item. -/
def NewsItem.key (it : NewsItem) : String × String := (it.title, it.link)

/-- The identity key of a stored row. -/
def Row.key (r : Row) : String × String := (r.title, r.link)

/-- The per-query dedup loop: walk `items` in order, drop an item whose
key is in `seen`, otherwise add the key to `seen` and keep the item.
Returns the final `seen` and the kept items (`new_items`). -/
def dedupScan (seen : List (String × String)) :
    List NewsItem → List (String × String) × List NewsItem
  | [] => (seen, [])
  | it :: rest =>
    if it.key ∈ seen then dedupScan seen rest
    else
      let r := dedupScan (it.key :: seen) rest
      (r.1, it :: r.2)

/-- The items one query contributes: none on a failed fetch, otherwise
the parse of the response body. -/
def itemsOf (responses : String → FetchResult) (q : String) (max_items : Nat)
    (now : String) : List NewsItem :=
  match responses q with
  | .failure => []
  | .success body => parse_rss body q max_items now

/-- The main per-query loop of `collect_daily`: fetch, parse, dedup,
and accumulate `all_new_rows` across queries, threading `seen`. -/
def runQueries (responses : String → FetchResult) (max_items : Nat) (now : String) :
    List String → List (String × String) → List (String × String) × List Row
  | [], seen => (seen, [])
  | q :: rest, seen =>
    let items := itemsOf responses q max_items now
    let d := dedupScan seen items
    let r := runQueries responses max_items now rest d.1
    (r.1, d.2.map NewsItem.as_row ++ r.2)

/-- The observable outcome of one `collect_daily` run: the final file
state, the list of `append_rows` calls made, and `all_new_rows`. -/
structure RunResult where
  finalFile : CsvFile
  appendCalls : List (List Row)
  all_new_rows : List Row
deriving Repr

/-- `collect_daily(day)`: load queries (with the built-in fallback),
seed the dedup set from the existing file, run the per-query loop, and
append once at the end iff the batch is non-empty. -/
def collect_daily (fileState : CsvFile) (qf : QueryFile)
    (responses : String → FetchResult) (max_items : Nat) (now : String) :
    RunResult :=
  let queries := queriesUsed qf
  let seen := read_existing_set fileState
  let r := runQueries responses max_items now queries seen
  let all_new_rows := r.2
  if all_new_rows.isEmpty then
    ⟨fileState, [], all_new_rows⟩
  else
    ⟨append_rows fileState all_new_rows, [all_new_rows], all_new_rows⟩

/-- The inputs of one run: query file state, upstream responses, the
`MAX_ITEMS_PER_QUERY` configuration, and the wall clock reading. -/
structure RunEnv where
  qf : QueryFile
  responses : String → FetchResult
  max_items : Nat
  now : String

/-- One run of the pipeline against the day's file. -/
def runOnce (f : CsvFile) (e : RunEnv) : RunResult :=
  collect_daily f e.qf e.responses e.max_items e.now

/-- A sequence of runs against the same day's file. -/
def runSeq (f : CsvFile) : List RunEnv → CsvFile
  | [] => f
  | e :: rest => runSeq (runOnce f e).finalFile rest

/-! ### Invariant predicates -/

/-- The rows a day's file can accumulate through runs of the pipeline:
every row has a non-empty, strip-fixed title and a strip-fixed link, and
rows with a non-empty link have pairwise distinct identity keys. -/
def RowsOK (rows : List Row) : Prop :=
  (∀ r ∈ rows, r.title ≠ "" ∧ pyStrip r.title = r.title ∧ pyStrip r.link = r.link) ∧
    ((rows.filter (fun r => r.link ≠ "")).map Row.key).Nodup

/-- A day-file state reachable from no prior dataset. -/
def GoodFile (f : CsvFile) : Prop :=
  f = .missing ∨ ∃ rows, f = .file true rows ∧ RowsOK rows

/-! ### Concrete fixtures used by the scenario claims -/

def sampleElem (tag txt : String) : Element := .mk tag (some txt) []

/-- An `<item>` with the given title and link text. -/
def sampleItem (t l : String) : Element :=
  .mk "item" none [sampleElem "title" t, sampleElem "link" l]

/-- Feed A: entries `(T1, L1)` and `(T2, L2)`. -/
def docA : XmlText :=
  .wellFormed (.mk "rss" none
    [.mk "channel" none [sampleItem "T1" "L1", sampleItem "T2" "L2"]])

/-- Feed B: a duplicate of `(T1, L1)` and a titleless entry with link `L3`. -/
def docB : XmlText :=
  .wellFormed (.mk "rss" none
    [.mk "channel" none [sampleItem "T1" "L1", sampleItem "" "L3"]])

/-- Raw entries with a titleless first entry followed by two valid ones. -/
def docCItems : List Element :=
  [sampleItem "" "L0", sampleItem "T1" "L1", sampleItem "T2" "L2"]

def docC : XmlText :=
  .wellFormed (.mk "rss" none [.mk "channel" none docCItems])

/-- A feed whose only entry has an empty link. -/
def docE : XmlText :=
  .wellFormed (.mk "rss" none [.mk "channel" none [sampleItem "T1" ""]])

def respAB : String → FetchResult := fun q =>
  if q = "A" then .success docA else if q = "B" then .success docB else .failure

def respA : String → FetchResult := fun q =>
  if q = "A" then .success docA else .failure

def respE : String → FetchResult := fun q =>
  if q = "A" then .success docE else .failure

def respFail : String → FetchResult := fun _ => .failure

def qfA : QueryFile := .present ["A"]

def qfAB : QueryFile := .present ["A", "B"]

/-- A run environment whose sole feed entry has an empty link. -/
def envE : RunEnv := ⟨qfA, respE, 60, "now"⟩

def rowT1A : Row := ⟨"GoogleNews:A", "A", "T1", "L1", "", "now"⟩

def rowT2A : Row := ⟨"GoogleNews:A", "A", "T2", "L2", "", "now"⟩

/-- A persisted row with a non-empty title and an empty link. -/
def rowT1E : Row := ⟨"GoogleNews:A", "A", "T1", "", "", "now"⟩

/-! ### Lemmas about `pyStrip` -/

/-- Stripping whitespace from both ends of a character list is idempotent. -/
theorem stripData_idem (l : List Char) :
    List.rdropWhile Char.isWhitespace
        (List.dropWhile Char.isWhitespace
          (List.rdropWhile Char.isWhitespace (List.dropWhile Char.isWhitespace l)))
      = List.rdropWhile Char.isWhitespace (List.dropWhile Char.isWhitespace l) := by
  set p := Char.isWhitespace with hp
  set m := List.dropWhile p l with hm
  have hk : List.dropWhile p (List.rdropWhile p m) = List.rdropWhile p m := by
    rcases eq_or_ne (List.rdropWhile p m) [] with h | h
    · rw [h]; rfl
    · rw [List.dropWhile_eq_self_iff]
      intro hl
      obtain ⟨t, ht⟩ := List.rdropWhile_prefix p m
      have hml : 0 < m.length := by
        rw [← ht, List.length_append]
        have := List.length_pos.mpr h
        omega
      have hmm : List.dropWhile p m = m := by
        rw [hm, List.dropWhile_idempotent]
      have hnot := (List.dropWhile_eq_self_iff.mp hmm) hml
      have h1 : m.get ⟨0, hml⟩
          = (List.rdropWhile p m ++ t).get ⟨0, by rw [ht]; exact hml⟩ :=
        List.get_of_eq ht.symm ⟨0, hml⟩
      have h2 : (List.rdropWhile p m ++ t).get ⟨0, by rw [ht]; exact hml⟩
          = (List.rdropWhile p m).get ⟨0, hl⟩ := List.get_append 0 hl
      rwa [h1.trans h2] at hnot
  rw [hk, List.rdropWhile_idempotent]

/-- `str.strip()` is idempotent. -/
theorem pyStrip_idem (s : String) : pyStrip (pyStrip s) = pyStrip s :=
  congrArg String.mk (stripData_idem s.data)

/-! ### Membership in the dedup index built by `read_existing_set` -/

theorem mem_readStep {k : String × String} {seen : List (String × String)} {r : Row} :
    k ∈ readStep seen r ↔
      k ∈ seen ∨
        (pyStrip r.title ≠ "" ∧ pyStrip r.link ≠ "" ∧
          k = (pyStrip r.title, pyStrip r.link)) := by
  simp only [readStep]
  split_ifs with h hmem
  · constructor
    · exact Or.inl
    · rintro (hk | ⟨_, _, rfl⟩)
      · exact hk
      · exact hmem
  · rw [List.mem_cons]
    constructor
    · rintro (rfl | hk)
      · exact Or.inr ⟨h.1, h.2, rfl⟩
      · exact Or.inl hk
    · rintro (hk | ⟨_, _, rfl⟩)
      · exact Or.inr hk
      · exact Or.inl rfl
  · constructor
    · exact Or.inl
    · rintro (hk | ⟨h1, h2, _⟩)
      · exact hk
      · exact absurd ⟨h1, h2⟩ h

theorem mem_foldl_readStep {k : String × String} :
    ∀ (rows : List Row) (seen : List (String × String)),
      k ∈ rows.foldl readStep seen ↔
        k ∈ seen ∨
          ∃ r ∈ rows, pyStrip r.title ≠ "" ∧ pyStrip r.link ≠ "" ∧
            k = (pyStrip r.title, pyStrip r.link)
  | [], seen => by simp
  | r :: rest, seen => by
    rw [List.foldl_cons, mem_foldl_readStep rest, mem_readStep]
    constructor
    · rintro ((hk | hr) | ⟨r', hr', hp⟩)
      · exact Or.inl hk
      · exact Or.inr ⟨r, List.mem_cons_self r rest, hr⟩
      · exact Or.inr ⟨r', List.mem_cons_of_mem r hr', hp⟩
    · rintro (hk | ⟨r', hr', hp⟩)
      · exact Or.inl (Or.inl hk)
      · rcases List.mem_cons.mp hr' with rfl | hr'
        · exact Or.inl (Or.inr hp)
        · exact Or.inr ⟨r', hr', hp⟩

/-- Exactly the keys with non-empty stripped title and link of the rows
the read yields are in the seeded dedup index. -/
theorem mem_read_existing_set {k : String × String} {b : Bool} (rows : List Row) :
    k ∈ read_existing_set (.file b rows) ↔
      ∃ r ∈ rows, pyStrip r.title ≠ "" ∧ pyStrip r.link ≠ "" ∧
        k = (pyStrip r.title, pyStrip r.link) := by
  rw [show read_existing_set (.file b rows) = rows.foldl readStep [] from rfl,
    mem_foldl_readStep]
  simp

/-! ### Properties of `parse_rss` output -/

theorem mem_parse_rss {it : NewsItem} {x : XmlText} {q : String} {n : Nat}
    {now : String} (h : it ∈ parse_rss x q n now) :
    it.query = q ∧ it.collected_jst = now ∧ it.title ≠ "" ∧
      pyStrip it.title = it.title ∧ pyStrip it.link = it.link := by
  cases x with
  | malformed => simp [parse_rss] at h
  | wellFormed root =>
    cases hc : root.findTag "channel" with
    | none => simp [parse_rss, hc] at h
    | some channel =>
      simp only [parse_rss, hc] at h
      obtain ⟨e, _, he⟩ := List.mem_filterMap.mp h
      by_cases ht : pyStrip ((e.findtext "title").getD "") = ""
      · rw [if_pos ht] at he; exact absurd he (by simp)
      · rw [if_neg ht] at he
        have := Option.some.inj he
        subst this
        exact ⟨rfl, rfl, ht, pyStrip_idem _, pyStrip_idem _⟩

theorem parse_rss_length_le (x : XmlText) (q : String) (n : Nat) (now : String) :
    (parse_rss x q n now).length ≤ n := by
  cases x with
  | malformed => simp [parse_rss]
  | wellFormed root =>
    cases hc : root.findTag "channel" with
    | none => simp [parse_rss, hc]
    | some channel =>
      simp only [parse_rss, hc]
      exact le_trans (List.length_filterMap_le _ _)
        (by rw [List.length_take]; omega)

/-! ### Lemmas about the per-query dedup loop -/

theorem key_as_row (it : NewsItem) : it.as_row.key = it.key := rfl

theorem dedupScan_sub : ∀ (items : List NewsItem) (seen) {it' : NewsItem},
    it' ∈ (dedupScan seen items).2 → it' ∈ items
  | [], _, _ => fun h => by simp [dedupScan] at h
  | it :: rest, seen, it' => fun h => by
    by_cases hk : it.key ∈ seen
    · simp only [dedupScan, if_pos hk] at h
      exact List.mem_cons_of_mem _ (dedupScan_sub rest seen h)
    · simp only [dedupScan, if_neg hk] at h
      rcases List.mem_cons.mp h with rfl | h'
      · exact List.mem_cons_self _ _
      · exact List.mem_cons_of_mem _ (dedupScan_sub rest _ h')

theorem mem_dedupScan_fst {k : String × String} :
    ∀ (items : List NewsItem) (seen),
      k ∈ (dedupScan seen items).1 ↔
        k ∈ seen ∨ k ∈ (dedupScan seen items).2.map NewsItem.key
  | [], seen => by simp [dedupScan]
  | it :: rest, seen => by
    by_cases h : it.key ∈ seen
    · simp only [dedupScan, if_pos h]
      exact mem_dedupScan_fst rest seen
    · simp only [dedupScan, if_neg h, List.map_cons, List.mem_cons]
      rw [mem_dedupScan_fst rest (it.key :: seen), List.mem_cons]
      tauto

theorem dedupScan_nodup : ∀ (items : List NewsItem) (seen),
    ((dedupScan seen items).2.map NewsItem.key).Nodup ∧
      ∀ k ∈ (dedupScan seen items).2.map NewsItem.key, k ∉ seen
  | [], seen => by simp [dedupScan]
  | it :: rest, seen => by
    by_cases h : it.key ∈ seen
    · simp only [dedupScan, if_pos h]
      exact dedupScan_nodup rest seen
    · simp only [dedupScan, if_neg h, List.map_cons]
      obtain ⟨h1, h2⟩ := dedupScan_nodup rest (it.key :: seen)
      constructor
      · rw [List.nodup_cons]
        exact ⟨fun hmem => (h2 _ hmem) (List.mem_cons_self _ _), h1⟩
      · intro k hk hkseen
        rcases List.mem_cons.mp hk with rfl | hk'
        · exact h hkseen
        · exact (h2 _ hk') (List.mem_cons_of_mem _ hkseen)

theorem dedupScan_key_mem : ∀ (items : List NewsItem) (seen) {it' : NewsItem},
    it' ∈ items → it'.key ∈ (dedupScan seen items).1
  | [], _, _ => fun h => absurd h (List.not_mem_nil _)
  | it :: rest, seen, it' => fun h => by
    by_cases hk : it.key ∈ seen
    · simp only [dedupScan, if_pos hk]
      rcases List.mem_cons.mp h with rfl | h'
      · exact (mem_dedupScan_fst rest seen).mpr (Or.inl hk)
      · exact dedupScan_key_mem rest seen h'
    · simp only [dedupScan, if_neg hk]
      rcases List.mem_cons.mp h with rfl | h'
      · exact (mem_dedupScan_fst rest _).mpr (Or.inl (List.mem_cons_self _ _))
      · exact dedupScan_key_mem rest (it.key :: seen) h'

theorem dedupScan_eq_nil : ∀ (items : List NewsItem) (seen),
    (∀ it' ∈ items, it'.key ∈ seen) → dedupScan seen items = (seen, [])
  | [], _ => fun _ => rfl
  | it :: rest, seen => fun h => by
    have hk : it.key ∈ seen := h it (List.mem_cons_self _ _)
    simp only [dedupScan, if_pos hk]
    exact dedupScan_eq_nil rest seen fun it' hit' => h it' (List.mem_cons_of_mem _ hit')

/-! ### Lemmas about the per-query loop of `collect_daily` -/

theorem mem_itemsOf {responses : String → FetchResult} {q : String} {n : Nat}
    {now : String} {it : NewsItem} (h : it ∈ itemsOf responses q n now) :
    it.query = q ∧ it.collected_jst = now ∧ it.title ≠ "" ∧
      pyStrip it.title = it.title ∧ pyStrip it.link = it.link := by
  revert h
  unfold itemsOf
  cases responses q with
  | failure => intro h; simp at h
  | success body => exact mem_parse_rss

section RunQueriesLemmas

variable {responses : String → FetchResult} {n : Nat} {now : String}

theorem runQueries_rows_from :
    ∀ (qs : List String) (seen) {row : Row},
      row ∈ (runQueries responses n now qs seen).2 →
        ∃ q ∈ qs, ∃ it ∈ itemsOf responses q n now, row = it.as_row
  | [], _, _ => fun h => by simp [runQueries] at h
  | q :: rest, seen, row => fun h => by
    simp only [runQueries] at h
    rcases List.mem_append.mp h with hl | hr
    · obtain ⟨it, hit, rfl⟩ := List.mem_map.mp hl
      exact ⟨q, List.mem_cons_self _ _, it, dedupScan_sub _ _ hit, rfl⟩
    · obtain ⟨q', hq', it, hit, rfl⟩ := runQueries_rows_from rest _ hr
      exact ⟨q', List.mem_cons_of_mem _ hq', it, hit, rfl⟩

theorem runQueries_nodup :
    ∀ (qs : List String) (seen),
      (((runQueries responses n now qs seen).2).map Row.key).Nodup ∧
        ∀ k ∈ ((runQueries responses n now qs seen).2).map Row.key, k ∉ seen
  | [], seen => by simp [runQueries]
  | q :: rest, seen => by
    simp only [runQueries, List.map_append, List.map_map]
    have hcomp : Row.key ∘ NewsItem.as_row = NewsItem.key := rfl
    rw [hcomp]
    obtain ⟨hd1, hd2⟩ := dedupScan_nodup (itemsOf responses q n now) seen
    obtain ⟨hr1, hr2⟩ :=
      runQueries_nodup rest (dedupScan seen (itemsOf responses q n now)).1
    constructor
    · rw [List.nodup_append]
      refine ⟨hd1, hr1, ?_⟩
      intro k hk hk'
      exact (hr2 _ hk')
        ((mem_dedupScan_fst _ _).mpr (Or.inr hk))
    · intro k hk hkseen
      rcases List.mem_append.mp hk with hl | hr
      · exact (hd2 _ hl) hkseen
      · exact (hr2 _ hr) ((mem_dedupScan_fst _ _).mpr (Or.inl hkseen))

theorem mem_runQueries_fst {k : String × String} :
    ∀ (qs : List String) (seen),
      k ∈ (runQueries responses n now qs seen).1 ↔
        k ∈ seen ∨ k ∈ ((runQueries responses n now qs seen).2).map Row.key
  | [], seen => by simp [runQueries]
  | q :: rest, seen => by
    simp only [runQueries, List.map_append, List.map_map]
    have hcomp : Row.key ∘ NewsItem.as_row = NewsItem.key := rfl
    rw [hcomp,
      mem_runQueries_fst rest (dedupScan seen (itemsOf responses q n now)).1,
      mem_dedupScan_fst, List.mem_append]
    tauto

theorem runQueries_key_mem :
    ∀ (qs : List String) (seen) {q : String} {it : NewsItem},
      q ∈ qs → it ∈ itemsOf responses q n now →
        it.key ∈ (runQueries responses n now qs seen).1
  | [], _, _, _ => fun hq _ => absurd hq (List.not_mem_nil _)
  | q0 :: rest, seen, q, it => fun hq hit => by
    simp only [runQueries]
    rcases List.mem_cons.mp hq with rfl | hq'
    · exact (mem_runQueries_fst rest _).mpr
        (Or.inl (dedupScan_key_mem _ seen hit))
    · exact runQueries_key_mem rest _ hq' hit

theorem runQueries_eq_nil :
    ∀ (qs : List String) (seen),
      (∀ q ∈ qs, ∀ it ∈ itemsOf responses q n now, it.key ∈ seen) →
        runQueries responses n now qs seen = (seen, [])
  | [], _ => fun _ => rfl
  | q :: rest, seen => fun h => by
    have hd : dedupScan seen (itemsOf responses q n now) = (seen, []) :=
      dedupScan_eq_nil _ seen (h q (List.mem_cons_self _ _))
    have hr : runQueries responses n now rest seen = (seen, []) :=
      runQueries_eq_nil rest seen fun q' hq' => h q' (List.mem_cons_of_mem _ hq')
    simp only [runQueries, hd, hr]
    rfl

end RunQueriesLemmas

/-! ### The per-day dataset invariant maintained across runs -/

theorem rowsOf_append_rows (f : CsvFile) (rows : List Row) :
    (append_rows f rows).rowsOf = f.rowsOf ++ rows := by
  cases f <;> rfl

theorem collect_daily_eq (f : CsvFile) (qf : QueryFile)
    (responses : String → FetchResult) (n : Nat) (now : String) :
    collect_daily f qf responses n now =
      if ((runQueries responses n now (queriesUsed qf)
            (read_existing_set f)).2).isEmpty then
        ⟨f, [], (runQueries responses n now (queriesUsed qf)
          (read_existing_set f)).2⟩
      else
        ⟨append_rows f (runQueries responses n now (queriesUsed qf)
            (read_existing_set f)).2,
          [(runQueries responses n now (queriesUsed qf)
            (read_existing_set f)).2],
          (runQueries responses n now (queriesUsed qf)
            (read_existing_set f)).2⟩ := rfl

theorem mem_read_of_ok {rows : List Row}
    (hok : ∀ r ∈ rows,
      r.title ≠ "" ∧ pyStrip r.title = r.title ∧ pyStrip r.link = r.link)
    {k : String × String} :
    k ∈ read_existing_set (.file true rows) ↔
      ∃ r ∈ rows, r.link ≠ "" ∧ k = r.key := by
  rw [mem_read_existing_set]
  constructor
  · rintro ⟨r, hr, h1, h2, rfl⟩
    obtain ⟨_, ht, hl⟩ := hok r hr
    refine ⟨r, hr, ?_, ?_⟩
    · rw [← hl]; exact h2
    · show (pyStrip r.title, pyStrip r.link) = (r.title, r.link)
      rw [ht, hl]
  · rintro ⟨r, hr, hlink, rfl⟩
    obtain ⟨htne, ht, hl⟩ := hok r hr
    refine ⟨r, hr, ?_, ?_, ?_⟩
    · rw [ht]; exact htne
    · rw [hl]; exact hlink
    · show (r.title, r.link) = (pyStrip r.title, pyStrip r.link)
      rw [ht, hl]

theorem runQueries_rows_props {responses : String → FetchResult} {n : Nat}
    {now : String} {qs : List String} {seen : List (String × String)} {row : Row}
    (h : row ∈ (runQueries responses n now qs seen).2) :
    row.title ≠ "" ∧ pyStrip row.title = row.title ∧ pyStrip row.link = row.link := by
  obtain ⟨q, _, it, hit, rfl⟩ := runQueries_rows_from _ _ h
  obtain ⟨_, _, h3, h4, h5⟩ := mem_itemsOf hit
  exact ⟨h3, h4, h5⟩

theorem nodup_keys_filter {rows : List Row}
    (h : (rows.map Row.key).Nodup) :
    ((rows.filter (fun r => r.link ≠ "")).map Row.key).Nodup :=
  h.sublist ((rows.filter_sublist).map Row.key)

/-- One run of `collect_daily` preserves the day-file invariant. -/
theorem runOnce_good {f : CsvFile} (e : RunEnv) (hf : GoodFile f) :
    GoodFile (runOnce f e).finalFile := by
  show GoodFile (collect_daily f e.qf e.responses e.max_items e.now).finalFile
  rw [collect_daily_eq]
  set R := runQueries e.responses e.max_items e.now (queriesUsed e.qf)
    (read_existing_set f) with hR
  by_cases hb : R.2.isEmpty
  · rw [if_pos hb]; exact hf
  · rw [if_neg hb]
    show GoodFile (append_rows f R.2)
    obtain ⟨hn1, hn2⟩ := @runQueries_nodup e.responses e.max_items e.now
      (queriesUsed e.qf) (read_existing_set f)
    rcases hf with rfl | ⟨rows₀, rfl, hok₀, hnd₀⟩
    · refine Or.inr ⟨R.2, rfl, ?_, ?_⟩
      · intro r hr; exact runQueries_rows_props hr
      · exact nodup_keys_filter hn1
    · refine Or.inr ⟨rows₀ ++ R.2, rfl, ?_, ?_⟩
      · intro r hr
        rcases List.mem_append.mp hr with h | h
        · exact hok₀ r h
        · exact runQueries_rows_props h
      · rw [List.filter_append, List.map_append, List.nodup_append]
        refine ⟨hnd₀, nodup_keys_filter hn1, ?_⟩
        intro k hk hk'
        have hkseen : k ∈ read_existing_set (.file true rows₀) := by
          rw [mem_read_of_ok hok₀]
          obtain ⟨r, hr, rfl⟩ := List.mem_map.mp hk
          obtain ⟨hrmem, hrl⟩ := List.mem_filter.mp hr
          exact ⟨r, hrmem, by simpa using hrl, rfl⟩
        have hknew : k ∈ R.2.map Row.key := by
          obtain ⟨r, hr, rfl⟩ := List.mem_map.mp hk'
          exact List.mem_map_of_mem _ (List.mem_of_mem_filter hr)
        exact (hn2 _ hknew) hkseen

/-- A sequence of runs preserves the day-file invariant. -/
theorem runSeq_good {f : CsvFile} (hf : GoodFile f) :
    ∀ envs : List RunEnv, GoodFile (runSeq f envs)
  | [] => hf
  | e :: rest => runSeq_good (runOnce_good e hf) rest

/-! ### Idempotence of a second run (non-empty links) -/

/-- After one run, every key the run's feeds can produce is in the dedup
index the next run seeds from the file — provided every parsed item has
a non-empty link. -/
theorem keys_seeded_after_run
    (f : CsvFile) (qf : QueryFile) (responses : String → FetchResult)
    (n : Nat) (now : String)
    (hread : f = CsvFile.missing ∨ ∃ rows, f = .file true rows)
    (hlink : ∀ q ∈ queriesUsed qf, ∀ it ∈ itemsOf responses q n now,
      it.link ≠ "") :
    ∀ q ∈ queriesUsed qf, ∀ it ∈ itemsOf responses q n now,
      it.key ∈ read_existing_set (collect_daily f qf responses n now).finalFile := by
  intro q hq it hit
  rw [collect_daily_eq]
  set R := runQueries responses n now (queriesUsed qf) (read_existing_set f)
    with hR
  have hkey : it.key ∈ R.1 := runQueries_key_mem _ _ hq hit
  rw [mem_runQueries_fst] at hkey
  have hrowslink : ∀ r ∈ R.2, r.link ≠ "" := by
    intro r hr
    obtain ⟨q', hq', it', hit', rfl⟩ := runQueries_rows_from _ _ hr
    exact hlink q' hq' it' hit'
  by_cases hb : R.2.isEmpty
  · rw [if_pos hb]
    rcases hkey with hk | hk
    · exact hk
    · rw [List.isEmpty_iff.mp hb] at hk
      simp at hk
  · rw [if_neg hb]
    show it.key ∈ read_existing_set (append_rows f R.2)
    have hnewmem : it.key ∈ R.2.map Row.key →
        ∃ r ∈ R.2, pyStrip r.title ≠ "" ∧ pyStrip r.link ≠ "" ∧
          it.key = (pyStrip r.title, pyStrip r.link) := by
      intro hk
      obtain ⟨r, hr, hkeq⟩ := List.mem_map.mp hk
      obtain ⟨h1, h2, h3⟩ := runQueries_rows_props hr
      refine ⟨r, hr, ?_, ?_, ?_⟩
      · rw [h2]; exact h1
      · rw [h3]; exact hrowslink r hr
      · rw [← hkeq]
        show r.key = (pyStrip r.title, pyStrip r.link)
        rw [h2, h3]
        rfl
    rcases hread with rfl | ⟨rows₀, rfl⟩
    · show it.key ∈ read_existing_set (.file true R.2)
      rw [mem_read_existing_set]
      rcases hkey with hk | hk
      · simp [read_existing_set] at hk
      · exact hnewmem hk
    · show it.key ∈ read_existing_set (.file true (rows₀ ++ R.2))
      rw [mem_read_existing_set]
      rcases hkey with hk | hk
      · rw [mem_read_existing_set] at hk
        obtain ⟨r, hr, hp⟩ := hk
        exact ⟨r, List.mem_append_left _ hr, hp⟩
      · obtain ⟨r, hr, hp⟩ := hnewmem hk
        exact ⟨r, List.mem_append_right _ hr, hp⟩

/-- Under the same upstream responses, a second run finds everything
already seeded and appends nothing — provided every parsed item has a
non-empty link and the day's file is readable. -/
theorem second_run_noop
    (f : CsvFile) (qf : QueryFile) (responses : String → FetchResult)
    (n : Nat) (now : String)
    (hread : f = CsvFile.missing ∨ ∃ rows, f = .file true rows)
    (hlink : ∀ q ∈ queriesUsed qf, ∀ it ∈ itemsOf responses q n now,
      it.link ≠ "") :
    (collect_daily (collect_daily f qf responses n now).finalFile
        qf responses n now).all_new_rows = [] ∧
      (collect_daily (collect_daily f qf responses n now).finalFile
          qf responses n now).finalFile
        = (collect_daily f qf responses n now).finalFile := by
  have hseed := keys_seeded_after_run f qf responses n now hread hlink
  set F1 := (collect_daily f qf responses n now).finalFile with hF1
  have hnil : runQueries responses n now (queriesUsed qf)
      (read_existing_set F1) = (read_existing_set F1, []) :=
    runQueries_eq_nil _ _ hseed
  rw [collect_daily_eq, hnil]
  exact ⟨rfl, rfl⟩

/-- `all_new_rows` is the output of the per-query loop, in both branches
of the final append. -/
theorem all_new_rows_eq (f : CsvFile) (qf : QueryFile)
    (responses : String → FetchResult) (n : Nat) (now : String) :
    (collect_daily f qf responses n now).all_new_rows =
      (runQueries responses n now (queriesUsed qf) (read_existing_set f)).2 := by
  rw [collect_daily_eq]
  split <;> rfl

/-- The query-file filter in map/filter form: strip every line, then
keep the non-blank, non-comment lines, preserving order and duplicates. -/
theorem filterMap_queries_eq :
    ∀ lines : List String,
      List.filterMap (fun l =>
          let s := pyStrip l
          if s = "" then none
          else if startsWithHash s then none else some s) lines
        = (lines.map pyStrip).filter
            (fun s => ¬(s = "" ∨ startsWithHash s))
  | [] => rfl
  | l :: rest => by
    have ih := filterMap_queries_eq rest
    by_cases h1 : pyStrip l = ""
    · simp [List.filterMap_cons, List.filter_cons, h1, ih]
    · by_cases h2 : startsWithHash (pyStrip l)
      · simp [List.filterMap_cons, List.filter_cons, h1, h2, ih]
      · simp [List.filterMap_cons, List.filter_cons, h1, h2, ih]

/-! ### The claims -/

/-- C4: with query list `["A", "B"]`, feed A yielding `(T1,L1)` and
`(T2,L2)`, feed B yielding a duplicate `(T1,L1)` and a titleless entry,
and no prior dataset, the run persists exactly the two rows
`(T1,L1,query=A)` and `(T2,L2,query=A)`, in that order. -/
theorem scenario_two_queries_dedup :
    (collect_daily .missing qfAB respAB 60 "now").all_new_rows
        = [rowT1A, rowT2A] ∧
      (collect_daily .missing qfAB respAB 60 "now").finalFile
        = .file true [rowT1A, rowT2A] :=
  ⟨by decide, by decide⟩

/-- C5: the `max_items` cap is applied to the raw entry list before the
empty-title filter: output length never exceeds `max_items`, and on a
feed whose first raw entry is titleless the parser returns only one
record for a cap of two even though two valid entries exist. -/
theorem cap_before_title_filter :
    (∀ (x : XmlText) (q : String) (n : Nat) (now : String),
        (parse_rss x q n now).length ≤ n) ∧
      (parse_rss docC "q" 2 "now").length = 1 ∧
        (docCItems.filter
            (fun e => pyStrip ((e.findtext "title").getD "") ≠ "")).length = 2 :=
  ⟨parse_rss_length_le, by decide, by decide⟩

/-- C6: the parser never raises: malformed input parses to the empty
list, and a well-formed root with no top-level `channel` element also
parses to the empty list. -/
theorem parser_total_on_bad_input :
    (∀ (q : String) (n : Nat) (now : String),
        parse_rss .malformed q n now = []) ∧
      ∀ (root : Element) (q : String) (n : Nat) (now : String),
        root.findTag "channel" = none →
          parse_rss (.wellFormed root) q n now = [] := by
  constructor
  · intro q n now; rfl
  · intro root q n now hc
    simp [parse_rss, hc]

/-- Witness for C6 at a root with no `channel` child. -/
theorem parser_total_witness :
    (Element.mk "rss" none []).findTag "channel" = none ∧
      parse_rss (.wellFormed (.mk "rss" none [])) "q" 5 "t" = [] :=
  ⟨rfl, parser_total_on_bad_input.2 _ "q" 5 "t" rfl⟩

/-- C7 (counterexample): a day file whose read fails after yielding one
valid row seeds the partially built, non-empty index — refuting "on any
read failure load returns an empty index". -/
theorem load_failure_partial_index_counterexample :
    read_existing_set (.file false [rowT1A]) ≠ [] ∧
      read_existing_set (.file false [rowT1A]) = [("T1", "L1")] :=
  ⟨by decide, by decide⟩

/-- C7 (amended): the loaded dedup index contains exactly the keys with
non-empty stripped title and link of the rows the read yields — all rows
on a clean read, the rows before the failure when the read raises under
`except: pass` — and is empty for a missing file or a failure that
precedes the first row; the run never fails. -/
theorem load_index_partial_on_failure :
    (∀ (b : Bool) (rows : List Row) (k : String × String),
        k ∈ read_existing_set (.file b rows) ↔
          ∃ r ∈ rows, pyStrip r.title ≠ "" ∧ pyStrip r.link ≠ "" ∧
            k = (pyStrip r.title, pyStrip r.link)) ∧
      read_existing_set .missing = [] ∧
        ∀ b : Bool, read_existing_set (.file b []) = [] :=
  ⟨fun _ rows _ => mem_read_existing_set rows, rfl, fun _ => rfl⟩

/-- C1 (counterexample): two runs over the same empty-link feed leave
the day's dataset with two rows sharing the identity key `(T1, "")`,
refuting "no two rows in a day's dataset share `(title, link)`". -/
theorem day_dataset_duplicate_key_counterexample :
    (runSeq .missing [envE, envE]).rowsOf.map Row.key
        = [("T1", ""), ("T1", "")] ∧
      ¬ ((runSeq .missing [envE, envE]).rowsOf.map Row.key).Nodup :=
  ⟨by decide, by decide⟩

/-- C1 (amended): in a day's dataset produced by any sequence of runs
from no prior dataset, no two rows that both have a non-empty link share
the identity key `(title, link)`; rows with an empty link can recur. -/
theorem day_dataset_keys_nodup_amended (envs : List RunEnv) :
    ((((runSeq CsvFile.missing envs).rowsOf.filter
        (fun r => r.link ≠ "")).map Row.key)).Nodup := by
  rcases runSeq_good (Or.inl rfl) envs with h | ⟨rows, hf, _, hnd⟩
  · rw [h]
    simp [CsvFile.rowsOf]
  · rw [hf]
    exact hnd

/-- C2 (counterexample): against fixed upstream responses whose single
entry has an empty link, a second run appends the entry again, so two
runs leave two rows where one run leaves one. -/
theorem second_run_adds_row_counterexample :
    (runSeq .missing [envE, envE]).rowsOf.length
        ≠ (runSeq .missing [envE]).rowsOf.length ∧
      (runSeq .missing [envE]).rowsOf.length = 1 ∧
        (runSeq .missing [envE, envE]).rowsOf.length = 2 :=
  ⟨by decide, by decide, by decide⟩

/-- C2 (amended): when the day's file is readable and every item parsed
from the fixed upstream responses has a non-empty link, a second run for
the same date appends zero new rows and leaves the dataset's row count
unchanged. -/
theorem second_run_idempotent_amended (f : CsvFile) (qf : QueryFile)
    (responses : String → FetchResult) (n : Nat) (now : String)
    (hread : f = CsvFile.missing ∨ ∃ rows, f = CsvFile.file true rows)
    (hlink : ∀ q ∈ queriesUsed qf, ∀ it ∈ itemsOf responses q n now,
      it.link ≠ "") :
    (collect_daily (collect_daily f qf responses n now).finalFile
        qf responses n now).all_new_rows = [] ∧
      ((collect_daily (collect_daily f qf responses n now).finalFile
            qf responses n now).finalFile).rowsOf.length
        = ((collect_daily f qf responses n now).finalFile).rowsOf.length := by
  obtain ⟨h1, h2⟩ := second_run_noop f qf responses n now hread hlink
  exact ⟨h1, by rw [h2]⟩

/-- Witness for C2 (amended) on a feed with non-empty links. -/
theorem second_run_idempotent_witness :
    (CsvFile.missing = CsvFile.missing ∨
        ∃ rows, CsvFile.missing = CsvFile.file true rows) ∧
      (∀ q ∈ queriesUsed qfA, ∀ it ∈ itemsOf respA q 60 "now",
        it.link ≠ "") ∧
      (collect_daily (collect_daily .missing qfA respA 60 "now").finalFile
          qfA respA 60 "now").all_new_rows = [] :=
  ⟨Or.inl rfl, by decide,
    (second_run_idempotent_amended .missing qfA respA 60 "now"
      (Or.inl rfl) (by decide)).1⟩

/-- C3: a persisted row with an empty link never contributes a key to
the loaded dedup index, and a later run over a feed repeating the same
title with an empty link appends the entry again. -/
theorem empty_link_not_seeded_reappended :
    (∀ (f : CsvFile) (t : String), (t, "") ∉ read_existing_set f) ∧
      (collect_daily (.file true [rowT1E]) qfA respE 60 "now2").all_new_rows.map
          Row.key = [("T1", "")] ∧
        (collect_daily (.file true [rowT1E]) qfA respE 60
            "now2").finalFile.rowsOf.map Row.key
          = [("T1", ""), ("T1", "")] := by
  refine ⟨?_, by decide, by decide⟩
  intro f t h
  cases f with
  | missing => simp [read_existing_set] at h
  | file b rows =>
    rw [mem_read_existing_set] at h
    obtain ⟨r, _, _, hl, hk⟩ := h
    exact hl (congrArg Prod.snd hk).symm

/-- Witness for C3: the key of the empty-link row is not seeded. -/
theorem empty_link_not_seeded_witness :
    ("T1", "") ∉ read_existing_set (.file true [rowT1E]) :=
  empty_link_not_seeded_reappended.1 _ _

/-- C8: when the run's batch is empty the day file is untouched (not
created, contents unchanged) and no append call is made; when it is
non-empty, exactly one append call is made with the full batch. -/
theorem final_append_exactly_once (f : CsvFile) (qf : QueryFile)
    (responses : String → FetchResult) (n : Nat) (now : String) :
    ((collect_daily f qf responses n now).all_new_rows = [] →
        (collect_daily f qf responses n now).appendCalls = [] ∧
          (collect_daily f qf responses n now).finalFile = f) ∧
      ((collect_daily f qf responses n now).all_new_rows ≠ [] →
        (collect_daily f qf responses n now).appendCalls
            = [(collect_daily f qf responses n now).all_new_rows] ∧
          (collect_daily f qf responses n now).finalFile
            = append_rows f (collect_daily f qf responses n now).all_new_rows) := by
  rw [collect_daily_eq]
  by_cases hb : (runQueries responses n now (queriesUsed qf)
      (read_existing_set f)).2.isEmpty
  · rw [if_pos hb]
    exact ⟨fun _ => ⟨rfl, rfl⟩, fun h => absurd (List.isEmpty_iff.mp hb) h⟩
  · rw [if_neg hb]
    refine ⟨fun h => absurd h ?_, fun _ => ⟨rfl, rfl⟩⟩
    intro hc
    exact hb (List.isEmpty_iff.mpr hc)

/-- Witness for C8 on a run with no new rows. -/
theorem final_append_witness :
    (collect_daily .missing qfA respFail 60 "now").all_new_rows = [] ∧
      (collect_daily .missing qfA respFail 60 "now").appendCalls = [] ∧
        (collect_daily .missing qfA respFail 60 "now").finalFile = .missing := by
  have h := (final_append_exactly_once .missing qfA respFail 60 "now").1 (by decide)
  exact ⟨by decide, h.1, h.2⟩

/-- C9: query loading is total and never yields an empty list: a missing
file (or one with no usable lines) falls back to `DEFAULT_QUERIES`, and
otherwise the stripped non-blank non-comment lines are used in file
order, duplicates preserved. -/
theorem query_loading_never_empty :
    (∀ qf : QueryFile, queriesUsed qf ≠ []) ∧
      queriesUsed .missing = DEFAULT_QUERIES ∧
      (∀ lines : List String,
          load_queries_from_file (.present lines)
            = (lines.map pyStrip).filter
                (fun s => ¬(s = "" ∨ startsWithHash s))) ∧
      ∀ qf : QueryFile, load_queries_from_file qf ≠ [] →
        queriesUsed qf = load_queries_from_file qf := by
  refine ⟨?_, rfl, ?_, ?_⟩
  · intro qf
    unfold queriesUsed
    by_cases h : (load_queries_from_file qf).isEmpty
    · rw [if_pos h]; decide
    · rw [if_neg h]
      intro hc
      exact h (by rw [hc]; rfl)
  · intro lines
    exact filterMap_queries_eq lines
  · intro qf h
    unfold queriesUsed
    rw [if_neg fun hb => h (List.isEmpty_iff.mp hb)]

/-- Witness for C9 on a one-line query file. -/
theorem query_loading_witness :
    load_queries_from_file qfA ≠ [] ∧
      queriesUsed qfA = load_queries_from_file qfA :=
  ⟨by decide, query_loading_never_empty.2.2.2 qfA (by decide)⟩

/-- C10: a feed entry whose title strips to empty never yields a record:
every parsed record and every newly appended row has a non-empty,
strip-fixed title, and every row of the final file is either
pre-existing or has a non-empty title. -/
theorem titleless_never_output :
    (∀ (x : XmlText) (q : String) (n : Nat) (now : String) (it : NewsItem),
        it ∈ parse_rss x q n now →
          it.title ≠ "" ∧ pyStrip it.title = it.title) ∧
      (∀ (f : CsvFile) (qf : QueryFile) (responses : String → FetchResult)
          (n : Nat) (now : String) (row : Row),
          row ∈ (collect_daily f qf responses n now).all_new_rows →
            row.title ≠ "" ∧ pyStrip row.title = row.title) ∧
      ∀ (f : CsvFile) (qf : QueryFile) (responses : String → FetchResult)
          (n : Nat) (now : String) (row : Row),
          row ∈ (collect_daily f qf responses n now).finalFile.rowsOf →
            row ∈ f.rowsOf ∨ row.title ≠ "" := by
  refine ⟨?_, ?_, ?_⟩
  · intro x q n now it h
    obtain ⟨_, _, h3, h4, _⟩ := mem_parse_rss h
    exact ⟨h3, h4⟩
  · intro f qf responses n now row h
    rw [all_new_rows_eq] at h
    obtain ⟨h1, h2, _⟩ := runQueries_rows_props h
    exact ⟨h1, h2⟩
  · intro f qf responses n now row h
    rw [collect_daily_eq] at h
    by_cases hb : (runQueries responses n now (queriesUsed qf)
        (read_existing_set f)).2.isEmpty
    · rw [if_pos hb] at h
      exact Or.inl h
    · rw [if_neg hb] at h
      have h' : row ∈ (append_rows f (runQueries responses n now
          (queriesUsed qf) (read_existing_set f)).2).rowsOf := h
      rw [rowsOf_append_rows] at h'
      rcases List.mem_append.mp h' with hl | hr
      · exact Or.inl hl
      · exact Or.inr (runQueries_rows_props hr).1

/-- Witness for C10 at a concrete parsed record. -/
theorem titleless_never_output_witness :
    (⟨"A", "T1", "L1", "", "now"⟩ : NewsItem) ∈ parse_rss docA "A" 60 "now" ∧
      ("T1" : String) ≠ "" :=
  ⟨by decide,
    (titleless_never_output.1 docA "A" 60 "now"
      ⟨"A", "T1", "L1", "", "now"⟩ (by decide)).1⟩

end TrendBot
